import Mathlib

/-!
Shallow embedding of the COVID-19 dashboard data pipeline (src/main.py).

The pandas tables are modelled as lists of row records:
  * a wide source table (one column per date) becomes `WideTable`;
  * the long, single-metric table produced by `melt`/`astype` becomes `List SRow`;
  * the merged confirmed+deaths table becomes `List MRow`;
  * the per-query series produced by `filtered_data` becomes `FilteredSeries`.

Nullable `Int64` cells are `Option ℤ`; float coordinates are `ℚ`; dates are `ℕ`
(the source only ever compares, groups and sorts them).  Python's `str` sort
compares code points, which is exactly lexicographic order on `Char`; since
kernel reduction cannot evaluate `String.le`, we spell that order out as
`strLe`, and we use `List.insertionSort` (structural recursion, hence
kernel-computable) for the ascending sorts that pandas `groupby` and Python's
`list.sort` perform.
-/

/-- Lexicographic order on char lists by code point, as Python compares `str`. -/
def lexLe : List Char → List Char → Bool
  | [], _ => true
  | _ :: _, [] => false
  | a :: as, b :: bs => if a < b then true else if b < a then false else lexLe as bs

/-- Python string `<=`, by Unicode code points. -/
def strLe (a b : String) : Bool := lexLe a.data b.data

/-- Lexicographic order on pandas groupby keys (Country, date). -/
def pairLe (p q : String × ℕ) : Bool :=
  if p.1 = q.1 then decide (p.2 ≤ q.2) else strLe p.1 q.1

/-- Lexicographic order on pandas groupby keys (Country, Province/State, date). -/
def tripLe (p q : String × String × ℕ) : Bool :=
  if p.1 = q.1 then pairLe p.2 q.2 else strLe p.1 q.1

/-- One entity row of a wide source CSV after the renames: identified by
(Country, Province/State, Lat, Long), with one nullable cell per date column. -/
structure WideRow where
  country : String
  province : String
  lat : ℚ
  long : ℚ
  values : List (Option ℤ)
deriving DecidableEq

/-- A wide source table: the list of date columns and the entity rows. -/
structure WideTable where
  dates : List ℕ
  rows : List WideRow
deriving DecidableEq

/-- One row of a melted single-metric long table (`RawSeriesRow`). -/
structure SRow where
  country : String
  province : String
  lat : ℚ
  long : ℚ
  date : ℕ
  value : Option ℤ
deriving DecidableEq

/-- One row of the unified table after merging confirmed and deaths
(`UnifiedRecord`). -/
structure MRow where
  country : String
  province : String
  lat : ℚ
  long : ℚ
  date : ℕ
  cumConfirmed : Option ℤ
  cumDeaths : Option ℤ
deriving DecidableEq

/-- `np.median` of a list of rationals: sort ascending, take the middle
element, or the mean of the two middle elements for even length. -/
def median (l : List ℚ) : ℚ :=
  let s := List.insertionSort (fun a b : ℚ => a ≤ b) l
  if s.length = 0 then 0
  else if s.length % 2 = 1 then s.getD (s.length / 2) 0
  else (s.getD (s.length / 2 - 1) 0 + s.getD (s.length / 2) 0) / 2

/-- Helper for `melt`: emit the rows of date column `j`, then recurse on the
remaining date columns.  pandas `melt` stacks the value columns in order: for
each date column, all entity rows in input order. -/
def meltFrom (j : ℕ) (dates : List ℕ) (rows : List WideRow) : List SRow :=
  match dates with
  | [] => []
  | d :: ds =>
      rows.filterMap (fun r => (r.values[j]?).map (fun v =>
        { country := r.country, province := r.province, lat := r.lat,
          long := r.long, date := d, value := v })) ++ meltFrom (j + 1) ds rows

/-- pandas `melt(id_vars=[Country, Province/State, Lat, Long], var_name=date)`:
reshape the date columns into one (date, value) row per entity per date. -/
def melt (w : WideTable) : List SRow := meltFrom 0 w.dates w.rows

/-- `load_data_global` (main.py lines 19-29), after the fetch: melt the wide
table, set aside the rows of the specially-tracked country China, group the
full melted data by (Country, date) — summing the metric with missing cells
skipped, taking median coordinates, and labelling the group rows with the
aggregate sentinel `<all>` — and concatenate the Chinese province rows back. -/
def load_data_global (w : WideTable) : List SRow :=
  let data := melt w
  let data_china := data.filter (fun r => r.country = "China")
  let keys := List.insertionSort (fun p q => pairLe p q = true)
    ((data.map (fun r => (r.country, r.date))).dedup)
  let grouped := keys.map (fun k =>
    let g := data.filter (fun r => r.country = k.1 ∧ r.date = k.2)
    { country := k.1, province := "<all>",
      lat := median (g.map (fun r => r.lat)),
      long := median (g.map (fun r => r.long)),
      date := k.2,
      value := some ((g.map (fun r => r.value.getD 0)).sum) : SRow })
  grouped ++ data_china

/-- `load_data_us` (main.py lines 32-44), after the fetch and column drops:
melt, then group by (Country, Province/State, date) with the same reducers;
no aggregate-sentinel row is synthesized for US data. -/
def load_data_us (w : WideTable) : List SRow :=
  let data := melt w
  let keys := List.insertionSort (fun p q => tripLe p q = true)
    ((data.map (fun r => (r.country, r.province, r.date))).dedup)
  keys.map (fun k =>
    let g := data.filter (fun r =>
      r.country = k.1 ∧ r.province = k.2.1 ∧ r.date = k.2.2)
    { country := k.1, province := k.2.1,
      lat := median (g.map (fun r => r.lat)),
      long := median (g.map (fun r => r.long)),
      date := k.2.2,
      value := some ((g.map (fun r => r.value.getD 0)).sum) : SRow })

/-- The columns every single-metric long table shares: pandas `DataFrame.merge`
with no `on=` argument joins on ALL common columns, which here are Country,
Province/State, Lat, Long and date. -/
def rowKey (r : SRow) : String × String × ℚ × ℚ × ℕ :=
  (r.country, r.province, r.lat, r.long, r.date)

/-- The identifying columns of a merged row. -/
def mrowKey (m : MRow) : String × String × ℚ × ℚ × ℕ :=
  (m.country, m.province, m.lat, m.long, m.date)

/-- pandas `A.merge(B)` as used in `refresh_data` (main.py lines 52-55):
inner join of the confirmed table `A` and the deaths table `B` on all shared
columns, in left-table order. -/
def merge (A B : List SRow) : List MRow :=
  A.flatMap (fun a =>
    (B.filter (fun b => rowKey b = rowKey a)).map (fun b =>
      { country := a.country, province := a.province, lat := a.lat,
        long := a.long, date := a.date,
        cumConfirmed := a.value, cumDeaths := b.value }))

/-- The outcome of the four remote CSV downloads: `main.py` fetches global
confirmed, global deaths, US confirmed and US deaths, in that order, and a
network/HTTP failure raises out of the surrounding call. -/
structure Fetchers where
  confirmedGlobal : Except String WideTable
  deathsGlobal : Except String WideTable
  confirmedUS : Except String WideTable
  deathsUS : Except String WideTable

/-- The persistent side state of the program: the pickle file `allData.pkl`
(if present) and a counter of how many `refresh_data` runs (each performing
the four fetches) have been started. -/
structure CacheState where
  pickle : Option (List MRow)
  refreshes : ℕ
deriving DecidableEq

/-- The pure part of `refresh_data` (main.py lines 51-58): fetch the four
files in program order, build both merged tables and concatenate them; the
first failed fetch aborts the whole computation. -/
def pipeline (f : Fetchers) : Except String (List MRow) := do
  let gc ← f.confirmedGlobal
  let gd ← f.deathsGlobal
  let uc ← f.confirmedUS
  let ud ← f.deathsUS
  pure (merge (load_data_global gc) (load_data_global gd)
        ++ merge (load_data_us uc) (load_data_us ud))

/-- `refresh_data` (main.py lines 51-58): run the pipeline; only if it
completes is the pickle file replaced (a single `to_pickle` call after the
whole table is built); an exception leaves the file untouched and propagates. -/
def refresh_data (f : Fetchers) (s : CacheState) :
    Except String (List MRow) × CacheState :=
  match pipeline f with
  | .ok d => (.ok d, { pickle := some d, refreshes := s.refreshes + 1 })
  | .error e => (.error e, { pickle := s.pickle, refreshes := s.refreshes + 1 })

/-- `pd.read_pickle(fileNamePickle)`: deserialize the snapshot, raising if the
file does not exist. -/
def read_pickle (s : CacheState) : Except String (List MRow) :=
  match s.pickle with
  | some t => .ok t
  | none => .error "FileNotFoundError"

/-- `all_data` (main.py lines 61-65): if no pickle file exists run
`refresh_data` first (its exception propagating), then deserialize and return
the snapshot. -/
def all_data (f : Fetchers) (s : CacheState) :
    Except String (List MRow) × CacheState :=
  match s.pickle with
  | none =>
      match refresh_data f s with
      | (.ok _, s1) => (read_pickle s1, s1)
      | (.error e, s1) => (.error e, s1)
  | some _ => (read_pickle s, s)

/-- One step of pandas `diff()` followed by `fillna(0)`: the difference of two
consecutive nullable cells, with a missing minuend, subtrahend or first-row
predecessor all collapsing to 0. -/
def diffStep : Option ℤ → Option ℤ → ℤ
  | some a, some b => b - a
  | _, _ => 0

/-- Run `diffStep` down a column, carrying the previous cell. -/
def diffPairs : Option ℤ → List (Option ℤ) → List ℤ
  | _, [] => []
  | prev, c :: rest => diffStep prev c :: diffPairs c rest

/-- pandas `column.diff().fillna(0)` on a nullable integer column (main.py
line 166): first differences, with every missing difference — the first row
and any difference touching a missing cell — replaced by 0. -/
def diff_fillna (l : List (Option ℤ)) : List ℤ := diffPairs none l

/-- `simple_moving_average` (main.py lines 47-48): `df.rolling(length).mean()`,
the trailing `length`-point arithmetic mean, undefined until `length`
observations are available. -/
def simple_moving_average (df : List ℤ) (length : ℕ) : List (Option ℚ) :=
  (List.range df.length).map (fun i =>
    if length ≤ i + 1 then
      some ((((df.take (i + 1)).drop (i + 1 - length)).sum : ℚ) / (length : ℚ))
    else none)

/-- One row of the per-query series before the derived columns are attached. -/
structure FRow where
  date : ℕ
  lat : ℚ
  long : ℚ
  cumConfirmed : Option ℤ
  cumDeaths : Option ℤ
deriving DecidableEq

/-- The row-selection and aggregation step of `filtered_data` (main.py lines
160-165): select the country's rows; for the aggregate sentinel, drop the
entity identity and re-sum per date (pandas `groupby("date").sum()` sorts the
date keys ascending and skips missing cells, summing every remaining numeric
column); otherwise keep exactly the rows of the requested region in table
order — the source applies no sort in this branch. -/
def filtered_rows (t : List MRow) (country state : String) : List FRow :=
  let data := t.filter (fun r => r.country = country)
  if state = "<all>" then
    (List.insertionSort (fun a b : ℕ => a ≤ b) ((data.map (fun r => r.date)).dedup)).map
      (fun d =>
        let g := data.filter (fun r => r.date = d)
        { date := d,
          lat := (g.map (fun r => r.lat)).sum,
          long := (g.map (fun r => r.long)).sum,
          cumConfirmed := some ((g.map (fun r => r.cumConfirmed.getD 0)).sum),
          cumDeaths := some ((g.map (fun r => r.cumDeaths.getD 0)).sum) })
  else
    (data.filter (fun r => r.province = state)).map (fun r =>
      { date := r.date, lat := r.lat, long := r.long,
        cumConfirmed := r.cumConfirmed, cumDeaths := r.cumDeaths })

/-- The per-query result of `filtered_data` (`FilteredSeries`), as columns. -/
structure FilteredSeries where
  dates : List ℕ
  lat : List ℚ
  long : List ℚ
  cumConfirmed : List (Option ℤ)
  cumDeaths : List (Option ℤ)
  newConfirmed : List ℤ
  newDeaths : List ℤ
  newConfirmedSMA7 : List (Option ℚ)
  newDeathsSMA7 : List (Option ℚ)

/-- `filtered_data` (main.py lines 159-172): select/aggregate the rows, take
first differences of the nullable integer columns with `diff().fillna(0)`,
and attach the 7-point trailing means of the New columns. -/
def filtered_data (t : List MRow) (country state : String) : FilteredSeries :=
  let rows := filtered_rows t country state
  { dates := rows.map (fun r => r.date)
  , lat := rows.map (fun r => r.lat)
  , long := rows.map (fun r => r.long)
  , cumConfirmed := rows.map (fun r => r.cumConfirmed)
  , cumDeaths := rows.map (fun r => r.cumDeaths)
  , newConfirmed := diff_fillna (rows.map (fun r => r.cumConfirmed))
  , newDeaths := diff_fillna (rows.map (fun r => r.cumDeaths))
  , newConfirmedSMA7 := simple_moving_average (diff_fillna (rows.map (fun r => r.cumConfirmed))) 7
  , newDeathsSMA7 := simple_moving_average (diff_fillna (rows.map (fun r => r.cumDeaths))) 7 }

/-- `update_states` (main.py lines 149-156): the distinct Province/State
values of the selected country (pandas `unique`; the order of first appearance
is irrelevant because of the subsequent sort, so `List.dedup` serves), with
the sentinel `<all>` inserted unconditionally at the front, then sorted by
Python string order. -/
def update_states (t : List MRow) (country : String) : List String :=
  let states := ((t.filter (fun r => r.country = country)).map (fun r => r.province)).dedup
  List.insertionSort (fun a b => strLe a b = true) ("<all>" :: states)

/-! ### Concrete tables used by the scenario claims and witnesses -/

/-- The spec's Testland scenario table: one country, aggregate-sentinel rows
for eight consecutive dates, CumConfirmed 1,1,2,4,7,11,16,22. -/
def testlandTable : List MRow :=
  [ { country := "Testland", province := "<all>", lat := 0, long := 0, date := 1, cumConfirmed := some 1, cumDeaths := some 0 },
    { country := "Testland", province := "<all>", lat := 0, long := 0, date := 2, cumConfirmed := some 1, cumDeaths := some 0 },
    { country := "Testland", province := "<all>", lat := 0, long := 0, date := 3, cumConfirmed := some 2, cumDeaths := some 0 },
    { country := "Testland", province := "<all>", lat := 0, long := 0, date := 4, cumConfirmed := some 4, cumDeaths := some 0 },
    { country := "Testland", province := "<all>", lat := 0, long := 0, date := 5, cumConfirmed := some 7, cumDeaths := some 0 },
    { country := "Testland", province := "<all>", lat := 0, long := 0, date := 6, cumConfirmed := some 11, cumDeaths := some 0 },
    { country := "Testland", province := "<all>", lat := 0, long := 0, date := 7, cumConfirmed := some 16, cumDeaths := some 0 },
    { country := "Testland", province := "<all>", lat := 0, long := 0, date := 8, cumConfirmed := some 22, cumDeaths := some 0 } ]

/-- Concrete wide table: one entity, two date columns. -/
def wideTest : WideTable :=
  { dates := [1, 2],
    rows := [ { country := "Aland", province := "P1", lat := 0, long := 0,
                values := [some 3, some 5] } ] }

/-- Concrete wide table with Chinese province rows and another country. -/
def wideChina : WideTable :=
  { dates := [1],
    rows := [ { country := "China", province := "Hubei", lat := 0, long := 0, values := [some 2] },
              { country := "China", province := "Beijing", lat := 0, long := 0, values := [some 3] },
              { country := "Aland", province := "", lat := 0, long := 0, values := [some 7] } ] }

/-- An empty wide table, used by the cache scenarios. -/
def wideEmpty : WideTable := { dates := [], rows := [] }

/-- A fetch environment where all four downloads succeed. -/
def fetchOk : Fetchers :=
  { confirmedGlobal := .ok wideEmpty, deathsGlobal := .ok wideEmpty,
    confirmedUS := .ok wideEmpty, deathsUS := .ok wideEmpty }

/-- A fetch environment where the first download fails. -/
def fetchFail : Fetchers :=
  { confirmedGlobal := .error "HTTPError", deathsGlobal := .ok wideEmpty,
    confirmedUS := .ok wideEmpty, deathsUS := .ok wideEmpty }

/-- A region series with a missing cumulative value in the middle. -/
def gapTable : List MRow :=
  [ { country := "X", province := "P", lat := 0, long := 0, date := 1, cumConfirmed := some 1, cumDeaths := some 0 },
    { country := "X", province := "P", lat := 0, long := 0, date := 2, cumConfirmed := none, cumDeaths := some 0 },
    { country := "X", province := "P", lat := 0, long := 0, date := 3, cumConfirmed := some 5, cumDeaths := some 0 } ]

/-- A table whose rows carry descending dates. -/
def unsortedTable : List MRow :=
  [ { country := "Y", province := "A", lat := 0, long := 0, date := 2, cumConfirmed := some 3, cumDeaths := some 0 },
    { country := "Y", province := "A", lat := 0, long := 0, date := 1, cumConfirmed := some 5, cumDeaths := some 0 } ]

/-- A table whose country has a province sorting before the sentinel, plus a
sentinel row of its own. -/
def dupSentinelTable : List MRow :=
  [ { country := "Testland", province := "0Place", lat := 0, long := 0, date := 1, cumConfirmed := some 1, cumDeaths := some 0 },
    { country := "Testland", province := "<all>", lat := 0, long := 0, date := 1, cumConfirmed := some 1, cumDeaths := some 0 } ]

/-- A table where a country-aggregate row coexists with province rows whose
values sum to the aggregate. -/
def chinaLikeTable : List MRow :=
  [ { country := "C", province := "<all>", lat := 0, long := 0, date := 1, cumConfirmed := some 5, cumDeaths := some 0 },
    { country := "C", province := "A", lat := 0, long := 0, date := 1, cumConfirmed := some 2, cumDeaths := some 0 },
    { country := "C", province := "B", lat := 0, long := 0, date := 1, cumConfirmed := some 3, cumDeaths := some 0 } ]

/-- Two single-metric rows that agree on (Country, Province/State, date) but
disagree on Lat. -/
def latMismatchA : List SRow :=
  [ { country := "X", province := "P", lat := 1, long := 0, date := 5, value := some 3 } ]

/-- The partner table for `latMismatchA`. -/
def latMismatchB : List SRow :=
  [ { country := "X", province := "P", lat := 2, long := 0, date := 5, value := some 4 } ]

/-- A single-metric table with a duplicated row, for the merge cross-product. -/
def dupKeyTable : List SRow :=
  [ { country := "X", province := "P", lat := 0, long := 0, date := 5, value := some 1 },
    { country := "X", province := "P", lat := 0, long := 0, date := 5, value := some 1 } ]

/-- A pair of one-row tables whose full join keys align. -/
def alignedA : List SRow :=
  [ { country := "X", province := "P", lat := 1, long := 2, date := 5, value := some 3 } ]

/-- The partner table for `alignedA`, same key, different metric value. -/
def alignedB : List SRow :=
  [ { country := "X", province := "P", lat := 1, long := 2, date := 5, value := some 9 } ]

/-! ### Generic helper lemmas -/

/-- A `filterMap` whose function hits on every element has full length. -/
theorem length_filterMap_of_isSome {α β : Type} (g : α → Option β) :
    ∀ l : List α, (∀ a ∈ l, (g a).isSome) → (l.filterMap g).length = l.length := by
  intro l
  induction l with
  | nil => intro _; rfl
  | cons a l ih =>
      intro h
      obtain ⟨b, hb⟩ := Option.isSome_iff_exists.mp (h a (List.mem_cons_self a l))
      rw [List.filterMap_cons, hb]
      simp only [List.length_cons]
      rw [ih (fun x hx => h x (List.mem_cons_of_mem a hx))]

/-- Length of `meltFrom`: every date column contributes one row per entity,
provided every entity row is at least wide enough. -/
theorem meltFrom_length (dates : List ℕ) :
    ∀ (j : ℕ) (rows : List WideRow),
      (∀ r ∈ rows, j + dates.length ≤ r.values.length) →
      (meltFrom j dates rows).length = rows.length * dates.length := by
  induction dates with
  | nil => intro j rows _; simp [meltFrom]
  | cons d ds ih =>
      intro j rows h
      rw [meltFrom, List.length_append]
      have h1 : (rows.filterMap (fun r => (r.values[j]?).map (fun v =>
          ({ country := r.country, province := r.province, lat := r.lat,
             long := r.long, date := d, value := v } : SRow)))).length = rows.length := by
        apply length_filterMap_of_isSome
        intro r hr
        have hj : j < r.values.length := by
          have := h r hr
          simp only [List.length_cons] at this
          omega
        simp [List.getElem?_eq_getElem hj]
      rw [h1, ih (j + 1) rows]
      · simp only [List.length_cons]
        ring
      · intro r hr
        have := h r hr
        simp only [List.length_cons] at this
        omega

/-- Claim C9: the melt step of the global-variant reshape is lossless in row
count: an input table with R entity rows and D date columns melts to exactly
R × D long rows. -/
theorem C9_melt_lossless (w : WideTable)
    (h : ∀ r ∈ w.rows, r.values.length = w.dates.length) :
    (melt w).length = w.rows.length * w.dates.length := by
  unfold melt
  apply meltFrom_length
  intro r hr
  rw [h r hr]
  omega

/-- Witness for C9 at a concrete table. -/
theorem C9_witness : (melt wideTest).length = wideTest.rows.length * wideTest.dates.length :=
  C9_melt_lossless wideTest (by decide)

/-- Claim C1: on the Testland scenario table, querying Testland with the
aggregate sentinel yields NewConfirmed = [0,0,1,2,3,4,5,6] (first differences
with the first row's difference defined as zero), and NewConfirmedSMA7 is
blank for the first 6 rows and equals 15/7 at the 7th row. -/
theorem C1_testland_scenario :
    (filtered_data testlandTable "Testland" "<all>").newConfirmed = [0, 0, 1, 2, 3, 4, 5, 6]
    ∧ (filtered_data testlandTable "Testland" "<all>").newConfirmedSMA7.take 6 = List.replicate 6 none
    ∧ (filtered_data testlandTable "Testland" "<all>").newConfirmedSMA7[6]? = some (some (15 / 7)) := by
  refine ⟨by decide, by decide, ?_⟩
  have h : (filtered_data testlandTable "Testland" "<all>").newConfirmedSMA7[6]?
      = some (some (((15 : ℤ) : ℚ) / ((7 : ℕ) : ℚ))) := by rfl
  rw [h]
  norm_num

/-! ### Cache store: refresh and load -/

/-- Claim C2: with no persisted snapshot, `all_data` performs exactly one
`refresh_data` and returns its result; with a snapshot present it deserializes
and returns it with no fetch; hence a second call performs zero additional
refreshes. -/
theorem C2_load_cache (f : Fetchers) (s : CacheState) (d : List MRow)
    (h : pipeline f = .ok d) :
    (s.pickle = none → all_data f s = (.ok d, { pickle := some d, refreshes := s.refreshes + 1 }))
    ∧ (∀ t, s.pickle = some t → all_data f s = (.ok t, s))
    ∧ (all_data f (all_data f s).2).2.refreshes = (all_data f s).2.refreshes := by
  have key1 : ∀ s' : CacheState, s'.pickle = none →
      all_data f s' = (.ok d, { pickle := some d, refreshes := s'.refreshes + 1 }) := by
    intro s' hs'
    simp [all_data, hs', refresh_data, h, read_pickle]
  have key2 : ∀ (s' : CacheState) (t : List MRow), s'.pickle = some t →
      all_data f s' = (.ok t, s') := by
    intro s' t hs'
    simp [all_data, hs', read_pickle]
  refine ⟨key1 s, key2 s, ?_⟩
  cases hs : s.pickle with
  | none =>
      rw [key1 s hs]
      rw [key2 { pickle := some d, refreshes := s.refreshes + 1 } d rfl]
  | some t0 =>
      rw [key2 s t0 hs, key2 s t0 hs]

/-- Witness for C2: starting from an empty cache, one successful load stores
the pipeline result and counts one refresh. -/
theorem C2_witness :
    all_data fetchOk { pickle := none, refreshes := 0 }
      = (.ok [], { pickle := some [], refreshes := 1 }) :=
  (C2_load_cache fetchOk { pickle := none, refreshes := 0 } [] rfl).1 rfl

/-- Claim C7: if the refresh pipeline fails at any stage the persisted
snapshot is unchanged; the snapshot is replaced, as a whole, exactly when the
pipeline completes. -/
theorem C7_refresh_atomic (f : Fetchers) (s : CacheState) :
    (∀ e, (refresh_data f s).1 = .error e → (refresh_data f s).2.pickle = s.pickle)
    ∧ (∀ d, (refresh_data f s).1 = .ok d → (refresh_data f s).2.pickle = some d) := by
  cases hp : pipeline f with
  | ok d =>
      constructor
      · intro e he
        rw [refresh_data, hp] at he
        cases he
      · intro d' hd
        rw [refresh_data, hp] at hd ⊢
        cases hd
        rfl
  | error e =>
      constructor
      · intro e' he
        rw [refresh_data, hp]
      · intro d' hd
        rw [refresh_data, hp] at hd
        cases hd

/-- Witness for C7: a failing fetch leaves a pre-existing snapshot in place. -/
theorem C7_witness :
    (refresh_data fetchFail { pickle := some [], refreshes := 3 }).2.pickle = some [] :=
  (C7_refresh_atomic fetchFail { pickle := some [], refreshes := 3 }).1 "HTTPError" rfl

/-! ### Differencing semantics -/

/-- The first-row difference is always filled with zero. -/
theorem diffStep_none_left (c : Option ℤ) : diffStep none c = 0 := by
  cases c <;> rfl

/-- A difference with a missing subtrahend is filled with zero. -/
theorem diffStep_none_right (p : Option ℤ) : diffStep p none = 0 := by
  cases p <;> rfl

/-- `diffPairs` preserves length. -/
theorem diffPairs_length : ∀ (l : List (Option ℤ)) (prev : Option ℤ),
    (diffPairs prev l).length = l.length := by
  intro l
  induction l with
  | nil => intro prev; rfl
  | cons c rest ih => intro prev; simp [diffPairs, ih]

/-- The head of `diffPairs`. -/
theorem diffPairs_head : ∀ (l : List (Option ℤ)) (prev : Option ℤ), l ≠ [] →
    (diffPairs prev l)[0]? = some (diffStep prev (l.headD none)) := by
  intro l
  cases l with
  | nil => intro prev h; cases h rfl
  | cons c rest => intro prev _; simp [diffPairs]

/-- Entry `i + 1` of `diffPairs` is the step between cells `i` and `i + 1`. -/
theorem diffPairs_get_succ : ∀ (l : List (Option ℤ)) (prev : Option ℤ) (i : ℕ)
    (p c : Option ℤ), l[i]? = some p → l[i + 1]? = some c →
    (diffPairs prev l)[i + 1]? = some (diffStep p c) := by
  intro l
  induction l with
  | nil => intro prev i p c hp _; simp at hp
  | cons x rest ih =>
      intro prev i p c hp hc
      cases i with
      | zero =>
          rw [List.getElem?_cons_zero] at hp
          cases hp
          rw [List.getElem?_cons_succ] at hc
          cases rest with
          | nil => simp at hc
          | cons y r2 =>
              rw [List.getElem?_cons_zero] at hc
              cases hc
              simp [diffPairs]
      | succ j =>
          rw [List.getElem?_cons_succ] at hp hc
          have := ih x j p c hp hc
          rw [diffPairs, List.getElem?_cons_succ]
          exact this

/-- Unfolding equation for the aggregate-sentinel branch of `filtered_rows`. -/
theorem filtered_rows_all_eq (t : List MRow) (c : String) :
    filtered_rows t c "<all>" =
      (List.insertionSort (fun a b : ℕ => a ≤ b)
        (((t.filter (fun r => r.country = c)).map (fun r => r.date)).dedup)).map
        (fun d =>
          { date := d,
            lat := (((t.filter (fun r => r.country = c)).filter (fun r => r.date = d)).map (fun r => r.lat)).sum,
            long := (((t.filter (fun r => r.country = c)).filter (fun r => r.date = d)).map (fun r => r.long)).sum,
            cumConfirmed := some ((((t.filter (fun r => r.country = c)).filter (fun r => r.date = d)).map (fun r => r.cumConfirmed.getD 0)).sum),
            cumDeaths := some ((((t.filter (fun r => r.country = c)).filter (fun r => r.date = d)).map (fun r => r.cumDeaths.getD 0)).sum) }) := by
  rfl

/-- Unfolding equation for the explicit-region branch of `filtered_rows`. -/
theorem filtered_rows_region_eq (t : List MRow) (c s : String) (hs : s ≠ "<all>") :
    filtered_rows t c s =
      ((t.filter (fun r => r.country = c)).filter (fun r => r.province = s)).map
        (fun r => { date := r.date, lat := r.lat, long := r.long,
                    cumConfirmed := r.cumConfirmed, cumDeaths := r.cumDeaths }) := by
  simp only [filtered_rows]
  rw [if_neg hs]

/-- Claim C6 (amended): `filtered_data` lets no missing value survive into the
New columns: present-present differences are true first differences, while the
first row and any difference whose minuend or subtrahend is missing are filled
with zero; and the aggregate-sentinel re-aggregation sums with missing cells
counted as zero, so its cumulative column has no missing values at all. -/
theorem C6_missing_semantics (t : List MRow) (c s : String) :
    (filtered_data t c s).newConfirmed.length = (filtered_data t c s).cumConfirmed.length
    ∧ ((filtered_data t c s).cumConfirmed ≠ [] →
        (filtered_data t c s).newConfirmed[0]? = some 0)
    ∧ (∀ i a b, (filtered_data t c s).cumConfirmed[i]? = some (some a) →
        (filtered_data t c s).cumConfirmed[i + 1]? = some (some b) →
        (filtered_data t c s).newConfirmed[i + 1]? = some (b - a))
    ∧ (∀ i, i + 1 < (filtered_data t c s).cumConfirmed.length →
        ((filtered_data t c s).cumConfirmed[i]? = some none ∨
         (filtered_data t c s).cumConfirmed[i + 1]? = some none) →
        (filtered_data t c s).newConfirmed[i + 1]? = some 0)
    ∧ (s = "<all>" → ∀ v ∈ (filtered_data t c s).cumConfirmed, v.isSome) := by
  have hcum : (filtered_data t c s).cumConfirmed
      = (filtered_rows t c s).map (fun r => r.cumConfirmed) := rfl
  have hnew : (filtered_data t c s).newConfirmed
      = diffPairs none ((filtered_rows t c s).map (fun r => r.cumConfirmed)) := rfl
  refine ⟨diffPairs_length _ _, ?_, ?_, ?_, ?_⟩
  · intro hne
    rw [hcum] at hne
    rw [hnew, diffPairs_head _ none hne, diffStep_none_left]
  · intro i a b ha hb
    rw [hcum] at ha hb
    rw [hnew]
    exact diffPairs_get_succ _ none i (some a) (some b) ha hb
  · intro i hlen hmiss
    rw [hcum] at hlen hmiss
    rw [hnew]
    set l := (filtered_rows t c s).map (fun r => r.cumConfirmed) with hl
    have hi : i < l.length := by omega
    have hi1 : i + 1 < l.length := hlen
    obtain ⟨p, hp⟩ : ∃ p, l[i]? = some p := ⟨l[i], List.getElem?_eq_getElem hi⟩
    obtain ⟨q, hq⟩ : ∃ q, l[i + 1]? = some q := ⟨l[i + 1], List.getElem?_eq_getElem hi1⟩
    have hstep := diffPairs_get_succ l none i p q hp hq
    have hzero : diffStep p q = 0 := by
      rcases hmiss with hm | hm
      · rw [hp] at hm
        cases hm
        exact diffStep_none_left q
      · rw [hq] at hm
        cases hm
        exact diffStep_none_right p
    rw [hstep, hzero]
  · intro hs v hv
    subst hs
    rw [hcum, filtered_rows_all_eq, List.map_map, List.mem_map] at hv
    obtain ⟨d, _, rfl⟩ := hv
    rfl

/-- Witness for C6 on the Testland table: the first New value is zero. -/
theorem C6_witness :
    (filtered_data testlandTable "Testland" "<all>").newConfirmed[0]? = some 0 :=
  (C6_missing_semantics testlandTable "Testland" "<all>").2.1 (by decide)

/-- Counterexample to C6 as stated: with CumConfirmed = [1, missing, 5] in the
explicit-region branch, both differences touching the missing cell come out as
0 — `fillna(0)` fills them — rather than propagating as missing. -/
theorem C6_counterexample :
    (filtered_data gapTable "X" "P").cumConfirmed = [some 1, none, some 5]
    ∧ (filtered_data gapTable "X" "P").newConfirmed = [0, 0, 0] := by
  constructor
  · decide
  · decide

/-! ### Sort behavior of the query -/

/-- Claim C8 (amended): the aggregate-sentinel branch of `filtered_data`
produces dates sorted ascending and pairwise distinct (pandas
`groupby("date")` sorts its keys); the explicit-region branch applies no sort:
its date sequence is exactly the table's row order restricted to the matching
rows (a sublist of the table's date column). -/
theorem C8_sort_behavior (t : List MRow) (c : String) :
    List.Sorted (fun a b : ℕ => a ≤ b) ((filtered_data t c "<all>").dates)
    ∧ ((filtered_data t c "<all>").dates).Nodup
    ∧ ∀ s, s ≠ "<all>" →
        ((filtered_data t c s).dates).Sublist (t.map (fun r => r.date)) := by
  have hdates : (filtered_data t c "<all>").dates
      = List.insertionSort (fun a b : ℕ => a ≤ b)
          (((t.filter (fun r => r.country = c)).map (fun r => r.date)).dedup) := by
    rw [show (filtered_data t c "<all>").dates
        = (filtered_rows t c "<all>").map (fun r => r.date) from rfl]
    rw [filtered_rows_all_eq, List.map_map]
    exact List.map_id _
  refine ⟨?_, ?_, ?_⟩
  · rw [hdates]
    exact List.sorted_insertionSort (fun a b : ℕ => a ≤ b) _
  · rw [hdates]
    exact ((List.perm_insertionSort _ _).nodup_iff).mpr (List.nodup_dedup _)
  · intro s hs
    rw [show (filtered_data t c s).dates
        = (filtered_rows t c s).map (fun r => r.date) from rfl]
    rw [filtered_rows_region_eq t c s hs, List.map_map]
    have h1 : ((t.filter (fun r => r.country = c)).filter (fun r => r.province = s)).Sublist t :=
      (List.filter_sublist _).trans (List.filter_sublist _)
    exact h1.map (fun r => r.date)

/-- Witness for C8: the explicit-region branch on a concrete table keeps the
table's (descending) order. -/
theorem C8_witness :
    ((filtered_data unsortedTable "Y" "A").dates).Sublist
      (unsortedTable.map (fun r => r.date)) :=
  (C8_sort_behavior unsortedTable "Y").2.2 "A" (by decide)

/-- Counterexample to C8 as stated: in the explicit-region branch the rows are
not sorted by date before differencing — the descending input order survives. -/
theorem C8_counterexample :
    (filtered_data unsortedTable "Y" "A").dates = [2, 1]
    ∧ ¬ List.Sorted (fun a b : ℕ => a ≤ b) ((filtered_data unsortedTable "Y" "A").dates) := by
  constructor
  · decide
  · decide

/-! ### Aggregate-sentinel double counting -/

/-- Splitting a mapped sum over a list by a Boolean predicate. -/
theorem sum_filter_split {α : Type} (p : α → Bool) (f : α → ℤ) :
    ∀ l : List α,
      ((l.filter p).map f).sum + ((l.filter (fun x => !(p x))).map f).sum
        = (l.map f).sum := by
  intro l
  induction l with
  | nil => rfl
  | cons a l ih =>
      cases hp : p a <;> simp [List.filter_cons, hp] <;> omega

/-- Collapsing the two nested filters of the aggregate branch into one. -/
theorem filter_country_date (t : List MRow) (c : String) (d : ℕ) :
    (t.filter (fun r => r.country = c)).filter (fun r => r.date = d)
      = t.filter (fun x => x.country = c ∧ x.date = d) := by
  rw [List.filter_filter]
  apply List.filter_congr
  intro a _
  simp [Bool.and_comm]

/-- Rewriting the province complement filter into Boolean-negation form. -/
theorem filter_not_sentinel (l : List MRow) :
    l.filter (fun x => x.province ≠ "<all>")
      = l.filter (fun x => !(decide (x.province = "<all>"))) := by
  apply List.filter_congr
  intro a _
  simp

/-- Claim C10: when `filtered_data` is called with the aggregate sentinel for
a country whose rows include both sentinel rows and province rows on a date,
the resulting cumulative value on that date is the sum of the sentinel rows
plus the sum of all province rows — twice the country's true total whenever
the sentinel rows' sum equals the province rows' sum. -/
theorem C10_double_count (t : List MRow) (c : String) (d : ℕ)
    (h : d ∈ (t.filter (fun r => r.country = c)).map (fun r => r.date)) :
    ∃ r ∈ filtered_rows t c "<all>", r.date = d
      ∧ r.cumConfirmed = some
          ((((t.filter (fun x => x.country = c ∧ x.date = d)).filter
              (fun x => x.province = "<all>")).map (fun x => x.cumConfirmed.getD 0)).sum
           + (((t.filter (fun x => x.country = c ∧ x.date = d)).filter
              (fun x => x.province ≠ "<all>")).map (fun x => x.cumConfirmed.getD 0)).sum)
      ∧ ∀ sAgg : ℤ,
          (((t.filter (fun x => x.country = c ∧ x.date = d)).filter
              (fun x => x.province = "<all>")).map (fun x => x.cumConfirmed.getD 0)).sum = sAgg →
          (((t.filter (fun x => x.country = c ∧ x.date = d)).filter
              (fun x => x.province ≠ "<all>")).map (fun x => x.cumConfirmed.getD 0)).sum = sAgg →
          r.cumConfirmed = some (2 * sAgg) := by
  have hd2 : d ∈ ((t.filter (fun r => r.country = c)).map (fun r => r.date)).dedup :=
    List.mem_dedup.mpr h
  have hd3 : d ∈ List.insertionSort (fun a b : ℕ => a ≤ b)
      (((t.filter (fun r => r.country = c)).map (fun r => r.date)).dedup) :=
    ((List.perm_insertionSort _ _).mem_iff).mpr hd2
  rw [filtered_rows_all_eq]
  refine ⟨_, List.mem_map_of_mem _ hd3, rfl, ?_⟩
  have hval :
      (((t.filter (fun r => r.country = c)).filter (fun r => r.date = d)).map
        (fun r => r.cumConfirmed.getD 0)).sum
      = (((t.filter (fun x => x.country = c ∧ x.date = d)).filter
            (fun x => x.province = "<all>")).map (fun x => x.cumConfirmed.getD 0)).sum
        + (((t.filter (fun x => x.country = c ∧ x.date = d)).filter
            (fun x => x.province ≠ "<all>")).map (fun x => x.cumConfirmed.getD 0)).sum := by
    rw [filter_country_date, filter_not_sentinel]
    exact (sum_filter_split (fun x : MRow => decide (x.province = "<all>"))
      (fun x : MRow => x.cumConfirmed.getD 0) _).symm
  constructor
  · show some ((((t.filter (fun r => r.country = c)).filter (fun r => r.date = d)).map
        (fun r => r.cumConfirmed.getD 0)).sum) = _
    rw [hval]
  · intro sAgg h1 h2
    show some ((((t.filter (fun r => r.country = c)).filter (fun r => r.date = d)).map
        (fun r => r.cumConfirmed.getD 0)).sum) = some (2 * sAgg)
    rw [hval, h1, h2, two_mul]

/-- Witness for C10: on a table where the sentinel row (5) equals the sum of
the province rows (2 + 3), the aggregate query doubles the total. -/
theorem C10_witness :
    ∃ r ∈ filtered_rows chinaLikeTable "C" "<all>", r.date = 1
      ∧ r.cumConfirmed = some
          ((((chinaLikeTable.filter (fun x => x.country = "C" ∧ x.date = 1)).filter
              (fun x => x.province = "<all>")).map (fun x => x.cumConfirmed.getD 0)).sum
           + (((chinaLikeTable.filter (fun x => x.country = "C" ∧ x.date = 1)).filter
              (fun x => x.province ≠ "<all>")).map (fun x => x.cumConfirmed.getD 0)).sum)
      ∧ ∀ sAgg : ℤ,
          (((chinaLikeTable.filter (fun x => x.country = "C" ∧ x.date = 1)).filter
              (fun x => x.province = "<all>")).map (fun x => x.cumConfirmed.getD 0)).sum = sAgg →
          (((chinaLikeTable.filter (fun x => x.country = "C" ∧ x.date = 1)).filter
              (fun x => x.province ≠ "<all>")).map (fun x => x.cumConfirmed.getD 0)).sum = sAgg →
          r.cumConfirmed = some (2 * sAgg) :=
  C10_double_count chinaLikeTable "C" 1 (by decide)

/-! ### Python string order: totality, transitivity, antisymmetry -/

/-- `lexLe` is total. -/
theorem lexLe_total : ∀ a b : List Char, lexLe a b = true ∨ lexLe b a = true := by
  intro a
  induction a with
  | nil => intro b; left; rfl
  | cons x xs ih =>
      intro b
      cases b with
      | nil => right; rfl
      | cons y ys =>
          rcases lt_trichotomy x y with h | h | h
          · left; simp [lexLe, h]
          · subst h
            rcases ih ys with h2 | h2
            · left; simp [lexLe, lt_irrefl, h2]
            · right; simp [lexLe, lt_irrefl, h2]
          · right; simp [lexLe, h]

/-- `lexLe` is transitive. -/
theorem lexLe_trans : ∀ a b c : List Char,
    lexLe a b = true → lexLe b c = true → lexLe a c = true := by
  intro a
  induction a with
  | nil => intro b c _ _; rfl
  | cons x xs ih =>
      intro b c hab hbc
      cases b with
      | nil => simp [lexLe] at hab
      | cons y ys =>
          cases c with
          | nil => simp [lexLe] at hbc
          | cons z zs =>
              rcases lt_trichotomy x y with h1 | h1 | h1
              · rcases lt_trichotomy y z with h2 | h2 | h2
                · simp [lexLe, lt_trans h1 h2]
                · subst h2; simp [lexLe, h1]
                · simp [lexLe, lt_asymm h2, h2] at hbc
              · subst h1
                have hab' : lexLe xs ys = true := by
                  simpa [lexLe, lt_irrefl] using hab
                rcases lt_trichotomy x z with h2 | h2 | h2
                · simp [lexLe, h2]
                · subst h2
                  have hbc' : lexLe ys zs = true := by
                    simpa [lexLe, lt_irrefl] using hbc
                  simp [lexLe, lt_irrefl, ih ys zs hab' hbc']
                · simp [lexLe, lt_asymm h2, h2] at hbc
              · simp [lexLe, lt_asymm h1, h1] at hab

/-- `lexLe` is antisymmetric. -/
theorem lexLe_antisymm : ∀ a b : List Char,
    lexLe a b = true → lexLe b a = true → a = b := by
  intro a
  induction a with
  | nil =>
      intro b _ hba
      cases b with
      | nil => rfl
      | cons y ys => simp [lexLe] at hba
  | cons x xs ih =>
      intro b hab hba
      cases b with
      | nil => simp [lexLe] at hab
      | cons y ys =>
          rcases lt_trichotomy x y with h | h | h
          · simp [lexLe, lt_asymm h, h] at hba
          · subst h
            have hab' : lexLe xs ys = true := by simpa [lexLe, lt_irrefl] using hab
            have hba' : lexLe ys xs = true := by simpa [lexLe, lt_irrefl] using hba
            rw [ih ys hab' hba']
          · simp [lexLe, lt_asymm h, h] at hab

/-- Antisymmetry lifted to `strLe`. -/
theorem strLe_antisymm (a b : String) (h1 : strLe a b = true) (h2 : strLe b a = true) :
    a = b := by
  cases a with
  | mk da =>
      cases b with
      | mk db =>
          rw [lexLe_antisymm da db h1 h2]

instance : IsTotal String (fun a b => strLe a b = true) :=
  ⟨fun a b => lexLe_total a.data b.data⟩

instance : IsTrans String (fun a b => strLe a b = true) :=
  ⟨fun a b c => lexLe_trans a.data b.data c.data⟩

/-! ### Region listing -/

/-- Claim C5 (amended): `update_states` returns, in Python-string sorted
order, the distinct Province/State values of the country together with one
unconditional extra copy of the aggregate sentinel.  Hence the sentinel is a
member; its multiplicity is one more than its multiplicity among the distinct
province values (two, not one, whenever the country's rows themselves carry
the sentinel); it is the first option whenever no province value sorts before
it; and a country with no rows at all yields exactly the sentinel list. -/
theorem C5_update_states (t : List MRow) (c : String) :
    List.Sorted (fun a b => strLe a b = true) (update_states t c)
    ∧ "<all>" ∈ update_states t c
    ∧ (update_states t c).count "<all>"
        = 1 + (((t.filter (fun r => r.country = c)).map (fun r => r.province)).dedup).count "<all>"
    ∧ (∀ x, x ∈ update_states t c ↔
        (x = "<all>" ∨ x ∈ (t.filter (fun r => r.country = c)).map (fun r => r.province)))
    ∧ ((∀ r ∈ t, r.country = c → strLe "<all>" r.province = true) →
        (update_states t c).head? = some "<all>")
    ∧ (t.filter (fun r => r.country = c) = [] → update_states t c = ["<all>"]) := by
  have hup : update_states t c
      = List.insertionSort (fun a b => strLe a b = true)
          ("<all>" :: ((t.filter (fun r => r.country = c)).map (fun r => r.province)).dedup) := rfl
  have hperm := List.perm_insertionSort (fun a b => strLe a b = true)
      ("<all>" :: ((t.filter (fun r => r.country = c)).map (fun r => r.province)).dedup)
  have hsorted : List.Sorted (fun a b => strLe a b = true) (update_states t c) := by
    rw [hup]
    exact List.sorted_insertionSort _ _
  have hmem : "<all>" ∈ update_states t c := by
    rw [hup]
    exact (hperm.mem_iff).mpr (List.mem_cons_self _ _)
  have hchar : ∀ x, x ∈ update_states t c ↔
      (x = "<all>" ∨ x ∈ (t.filter (fun r => r.country = c)).map (fun r => r.province)) := by
    intro x
    rw [hup, hperm.mem_iff, List.mem_cons, List.mem_dedup]
  refine ⟨hsorted, hmem, ?_, hchar, ?_, ?_⟩
  · rw [hup, hperm.count_eq, List.count_cons_self]
    omega
  · intro hmin
    cases hL : update_states t c with
    | nil =>
        rw [hL] at hmem
        cases hmem
    | cons h0 rest =>
        have hsorted' := hsorted
        rw [hL] at hsorted' hmem
        rcases List.mem_cons.mp hmem with he | he
        · rw [he]
          rfl
        · have h1 : strLe h0 "<all>" = true := (List.pairwise_cons.mp hsorted').1 _ he
          have hmem0 : h0 ∈ update_states t c := by
            rw [hL]
            exact List.mem_cons_self _ _
          rcases (hchar h0).mp hmem0 with h | h
          · rw [h]
            rfl
          · obtain ⟨r, hr, hrp⟩ := List.mem_map.mp h
            obtain ⟨hrt, hrc⟩ := List.mem_filter.mp hr
            have h2 : strLe "<all>" h0 = true := by
              rw [← hrp]
              exact hmin r hrt (of_decide_eq_true hrc)
            rw [strLe_antisymm h0 "<all>" h1 h2]
            rfl
  · intro hempty
    rw [hup, hempty]
    rfl

/-- Witness for C5: the head and empty-country conjuncts at concrete inputs. -/
theorem C5_witness :
    (update_states testlandTable "Testland").head? = some "<all>"
    ∧ update_states ([] : List MRow) "Z" = ["<all>"] :=
  ⟨(C5_update_states testlandTable "Testland").2.2.2.2.1 (by decide),
   (C5_update_states ([] : List MRow) "Z").2.2.2.2.2 rfl⟩

/-- Counterexample to C5 as stated: a country owning a sentinel row and a
province named `0Place` produces the list `["0Place", "<all>", "<all>"]` —
the sentinel appears twice, not once, and is not the first option. -/
theorem C5_counterexample :
    update_states dupSentinelTable "Testland" = ["0Place", "<all>", "<all>"]
    ∧ (update_states dupSentinelTable "Testland").count "<all>" = 2
    ∧ (update_states dupSentinelTable "Testland").head? ≠ some "<all>" := by
  refine ⟨by decide, by decide, by decide⟩

/-! ### Merge join semantics -/

/-- A filter none of whose elements satisfies the predicate is empty. -/
theorem filter_eq_nil_of_forall {α : Type} (p : α → Bool) :
    ∀ l : List α, (∀ x ∈ l, p x = false) → l.filter p = [] := by
  intro l
  induction l with
  | nil => intro _; rfl
  | cons a l ih =>
      intro h
      have ha : p a = false := h a (List.mem_cons_self a l)
      simp [List.filter_cons, ha, ih (fun x hx => h x (List.mem_cons_of_mem a hx))]

/-- In a table with pairwise-distinct join keys, at most one row matches a
given key. -/
theorem length_filter_rowKey_le_one :
    ∀ B : List SRow, (B.map rowKey).Nodup → ∀ k,
      (B.filter (fun b => rowKey b = k)).length ≤ 1 := by
  intro B
  induction B with
  | nil => intro _ k; simp
  | cons b B ih =>
      intro hnd k
      rw [List.map_cons, List.nodup_cons] at hnd
      by_cases hb : rowKey b = k
      · have hnil : B.filter (fun x => decide (rowKey x = k)) = [] := by
          apply filter_eq_nil_of_forall
          intro x hx
          simp only [decide_eq_false_iff_not]
          intro hxk
          exact hnd.1 (List.mem_map.mpr ⟨x, hx, by rw [hxk, hb]⟩)
        simp [List.filter_cons, hb, hnil]
      · simp only [List.filter_cons, decide_eq_true_eq]
        rw [if_neg hb]
        exact ih hnd.2 k

/-- A key present in a table matches at least one row. -/
theorem length_filter_rowKey_pos (B : List SRow) (k : String × String × ℚ × ℚ × ℕ)
    (h : ∃ b ∈ B, rowKey b = k) :
    1 ≤ (B.filter (fun b => rowKey b = k)).length := by
  obtain ⟨b, hb, hk⟩ := h
  exact List.length_pos_of_mem (List.mem_filter.mpr ⟨hb, by simp [hk]⟩)

/-- With distinct keys on the right, the inner join yields at most one output
row per left row. -/
theorem merge_length_le_left (A B : List SRow) (hB : (B.map rowKey).Nodup) :
    (merge A B).length ≤ A.length := by
  induction A with
  | nil => simp [merge]
  | cons a A ih =>
      simp only [merge, List.flatMap_cons, List.length_append, List.length_map,
        List.length_cons]
      simp only [merge] at ih
      have h1 := length_filter_rowKey_le_one B hB (rowKey a)
      omega

/-- Length of a filter of a disjunction of disjoint predicates. -/
theorem length_filter_or_disjoint {α : Type} (p q : α → Bool) :
    ∀ l : List α, (∀ x ∈ l, ¬(p x = true ∧ q x = true)) →
      (l.filter (fun x => p x || q x)).length = (l.filter p).length + (l.filter q).length := by
  intro l
  induction l with
  | nil => intro _; rfl
  | cons a l ih =>
      intro h
      have hrest := ih (fun x hx => h x (List.mem_cons_of_mem a hx))
      have ha := h a (List.mem_cons_self a l)
      cases hp : p a with
      | true =>
          cases hq : q a with
          | true => exact absurd ⟨hp, hq⟩ ha
          | false =>
              simp only [List.filter_cons, hp, hq, Bool.true_or, if_pos rfl]
              simp [hrest]
              omega
      | false =>
          cases hq : q a with
          | true =>
              simp only [List.filter_cons, hp, hq, Bool.false_or]
              simp [hrest]
              omega
          | false =>
              simp only [List.filter_cons, hp, hq, Bool.false_or]
              simp [hrest]

/-- With distinct keys on the left, the join's size is bounded by the number
of right rows whose key occurs on the left. -/
theorem merge_length_le_filter (B : List SRow) :
    ∀ A : List SRow, (A.map rowKey).Nodup →
      (merge A B).length ≤ (B.filter (fun b => rowKey b ∈ A.map rowKey)).length := by
  intro A
  induction A with
  | nil => intro _; simp [merge]
  | cons a A ih =>
      intro hnd
      rw [List.map_cons, List.nodup_cons] at hnd
      have h1 := ih hnd.2
      have hdisj : ∀ x ∈ B, ¬((decide (rowKey x = rowKey a)) = true
          ∧ (decide (rowKey x ∈ A.map rowKey)) = true) := by
        intro x _
        rintro ⟨hx1, hx2⟩
        rw [decide_eq_true_eq] at hx1 hx2
        exact hnd.1 (hx1 ▸ hx2)
      have hsplit := length_filter_or_disjoint (fun b => decide (rowKey b = rowKey a))
        (fun b => decide (rowKey b ∈ A.map rowKey)) B hdisj
      have hcong : B.filter (fun b => decide (rowKey b ∈ rowKey a :: A.map rowKey))
          = B.filter (fun b =>
              (decide (rowKey b = rowKey a)) || decide (rowKey b ∈ A.map rowKey)) := by
        apply List.filter_congr
        intro x _
        simp [List.mem_cons]
      simp only [merge, List.flatMap_cons, List.length_append, List.length_map]
      simp only [merge] at h1
      rw [List.map_cons, hcong, hsplit]
      omega

/-- If every left key also occurs on the right, and right keys are distinct,
the join has exactly one row per left row. -/
theorem merge_length_eq_left (A B : List SRow) (hB : (B.map rowKey).Nodup)
    (hall : ∀ a ∈ A, ∃ b ∈ B, rowKey b = rowKey a) :
    (merge A B).length = A.length := by
  induction A with
  | nil => simp [merge]
  | cons a A ih =>
      simp only [merge, List.flatMap_cons, List.length_append, List.length_map,
        List.length_cons]
      simp only [merge] at ih
      have h1 := length_filter_rowKey_le_one B hB (rowKey a)
      have h2 := length_filter_rowKey_pos B (rowKey a) (hall a (List.mem_cons_self a A))
      have h3 := ih (fun x hx => hall x (List.mem_cons_of_mem a hx))
      omega

/-- The join key of a merged row is the shared key of its two parents. -/
theorem merge_mem_key (A B : List SRow) (k : String × String × ℚ × ℚ × ℕ) :
    (∃ m ∈ merge A B, mrowKey m = k)
      ↔ ((∃ a ∈ A, rowKey a = k) ∧ ∃ b ∈ B, rowKey b = k) := by
  constructor
  · rintro ⟨m, hm, rfl⟩
    simp only [merge, List.mem_flatMap] at hm
    obtain ⟨a, ha, hm2⟩ := hm
    rw [List.mem_map] at hm2
    obtain ⟨b, hbf, rfl⟩ := hm2
    obtain ⟨hbB, hkey⟩ := List.mem_filter.mp hbf
    have hk : rowKey b = rowKey a := of_decide_eq_true hkey
    exact ⟨⟨a, ha, rfl⟩, ⟨b, hbB, hk⟩⟩
  · rintro ⟨⟨a, ha, rfl⟩, ⟨b, hb, hbk⟩⟩
    refine ⟨{ country := a.country, province := a.province, lat := a.lat,
              long := a.long, date := a.date,
              cumConfirmed := a.value, cumDeaths := b.value }, ?_, rfl⟩
    simp only [merge, List.mem_flatMap]
    refine ⟨a, ha, ?_⟩
    rw [List.mem_map]
    exact ⟨b, List.mem_filter.mpr ⟨hb, by simp [hbk]⟩, rfl⟩

/-- Claim C3 (amended): `merge` is an inner join on ALL shared columns —
(Country, Province/State, Lat, Long, date), not just (Country,
Province/State, date): a key appears in the output iff it occurs in both
inputs.  When each input's keys are pairwise distinct,
`len(merge(A,B)) ≤ min(len A, len B)`, with equality to both lengths when the
key sets coincide. -/
theorem C3_merge_semantics (A B : List SRow) :
    (∀ k, (∃ m ∈ merge A B, mrowKey m = k)
          ↔ ((∃ a ∈ A, rowKey a = k) ∧ ∃ b ∈ B, rowKey b = k))
    ∧ ((A.map rowKey).Nodup → (B.map rowKey).Nodup →
        (merge A B).length ≤ min A.length B.length)
    ∧ ((A.map rowKey).Nodup → (B.map rowKey).Nodup →
        (∀ k, (∃ a ∈ A, rowKey a = k) ↔ ∃ b ∈ B, rowKey b = k) →
        (merge A B).length = A.length ∧ (merge A B).length = B.length) := by
  refine ⟨merge_mem_key A B, ?_, ?_⟩
  · intro hA hB
    exact le_min (merge_length_le_left A B hB)
      (le_trans (merge_length_le_filter B A hA) (List.length_filter_le _ _))
  · intro hA hB halign
    have hall : ∀ a ∈ A, ∃ b ∈ B, rowKey b = rowKey a :=
      fun a ha => (halign (rowKey a)).mp ⟨a, ha, rfl⟩
    have h1 : (merge A B).length = A.length := merge_length_eq_left A B hB hall
    have hmm : ∀ k, k ∈ A.map rowKey ↔ k ∈ B.map rowKey := by
      intro k
      rw [List.mem_map, List.mem_map]
      constructor
      · rintro ⟨a, ha, rfl⟩
        obtain ⟨b, hb, hbk⟩ := (halign (rowKey a)).mp ⟨a, ha, rfl⟩
        exact ⟨b, hb, hbk⟩
      · rintro ⟨b, hb, rfl⟩
        obtain ⟨a, ha, hak⟩ := (halign (rowKey b)).mpr ⟨b, hb, rfl⟩
        exact ⟨a, ha, hak⟩
    have hperm : List.Perm (A.map rowKey) (B.map rowKey) :=
      (List.perm_ext_iff_of_nodup hA hB).mpr hmm
    have h2 : A.length = B.length := by
      have := hperm.length_eq
      simpa using this
    exact ⟨h1, by rw [h1, h2]⟩

/-- Witness for C3 on concrete aligned one-row tables. -/
theorem C3_witness :
    (merge alignedA alignedB).length ≤ min alignedA.length alignedB.length
    ∧ (merge alignedA alignedB).length = alignedA.length := by
  refine ⟨(C3_merge_semantics alignedA alignedB).2.1 (by decide) (by decide), ?_⟩
  refine ((C3_merge_semantics alignedA alignedB).2.2 (by decide) (by decide) ?_).1
  intro k
  constructor
  · rintro ⟨a, ha, rfl⟩
    simp only [alignedA, List.mem_singleton] at ha
    subst ha
    exact ⟨{ country := "X", province := "P", lat := 1, long := 2,
             date := 5, value := some 9 }, by decide, rfl⟩
  · rintro ⟨b, hb, rfl⟩
    simp only [alignedB, List.mem_singleton] at hb
    subst hb
    exact ⟨{ country := "X", province := "P", lat := 1, long := 2,
             date := 5, value := some 3 }, by decide, rfl⟩

/-- Counterexample to C3 as stated: two rows agreeing on (Country,
Province/State, date) but not on Lat are dropped by the join — the key is not
just (Country, Province/State, date); and with duplicated keys the join
exceeds `min(len A, len B)`. -/
theorem C3_counterexample :
    ((∃ a ∈ latMismatchA, ∃ b ∈ latMismatchB,
        a.country = b.country ∧ a.province = b.province ∧ a.date = b.date)
      ∧ merge latMismatchA latMismatchB = [])
    ∧ ((merge dupKeyTable dupKeyTable).length = 4
      ∧ ¬((merge dupKeyTable dupKeyTable).length
            ≤ min dupKeyTable.length dupKeyTable.length)) := by
  exact ⟨⟨by decide, by decide⟩, by decide, by decide⟩

/-! ### Global aggregation invariant -/

/-- Filtering a duplicate-free list for one of its members yields exactly that
member. -/
theorem filter_singleton_of_nodup {α : Type} [DecidableEq α] :
    ∀ l : List α, l.Nodup → ∀ x ∈ l, l.filter (fun y => y = x) = [x] := by
  intro l
  induction l with
  | nil => intro _ x hx; cases hx
  | cons a l ih =>
      intro hnd x hx
      rw [List.nodup_cons] at hnd
      rcases List.mem_cons.mp hx with rfl | hx2
      · have hnil : l.filter (fun y => decide (y = x)) = [] := by
          apply filter_eq_nil_of_forall
          intro y hy
          simp only [decide_eq_false_iff_not]
          intro h
          exact hnd.1 (h ▸ hy)
        simp [List.filter_cons, hnil]
      · have hax : ¬(a = x) := fun h => hnd.1 (h ▸ hx2)
        simp only [List.filter_cons, decide_eq_true_eq]
        rw [if_neg hax]
        exact ih hnd.2 x hx2

/-- Claim C4: in `load_data_global`'s output, every country other than the
specially-tracked China has exactly one row per represented date, carrying
the aggregate sentinel; for China a sentinel aggregate row exists for every
represented date, its metric value equal to the missing-as-zero sum of the
melted Chinese rows of that date, and every original Chinese province-level
row also survives into the output. -/
theorem C4_global_aggregation (w : WideTable) :
    (∀ c d, c ≠ "China" →
      (∃ r ∈ melt w, r.country = c ∧ r.date = d) →
        ((load_data_global w).filter (fun r => r.country = c ∧ r.date = d)).length = 1
        ∧ ∀ r ∈ (load_data_global w).filter (fun r => r.country = c ∧ r.date = d),
            r.province = "<all>")
    ∧ (∀ d, (∃ r ∈ melt w, r.country = "China" ∧ r.date = d) →
        ∃ a ∈ load_data_global w, a.country = "China" ∧ a.date = d ∧ a.province = "<all>"
          ∧ a.value = some ((((melt w).filter
              (fun r => r.country = "China" ∧ r.date = d)).map (fun r => r.value.getD 0)).sum))
    ∧ (∀ r ∈ melt w, r.country = "China" → r ∈ load_data_global w) := by
  have hkeysnd : (List.insertionSort (fun p q => pairLe p q = true)
      (((melt w).map (fun r => (r.country, r.date))).dedup)).Nodup :=
    ((List.perm_insertionSort _ _).nodup_iff).mpr (List.nodup_dedup _)
  have hout : load_data_global w
      = (List.insertionSort (fun p q => pairLe p q = true)
          (((melt w).map (fun r => (r.country, r.date))).dedup)).map
          (fun k =>
            ({ country := k.1, province := "<all>",
               lat := median (((melt w).filter
                 (fun r => r.country = k.1 ∧ r.date = k.2)).map (fun r => r.lat)),
               long := median (((melt w).filter
                 (fun r => r.country = k.1 ∧ r.date = k.2)).map (fun r => r.long)),
               date := k.2,
               value := some ((((melt w).filter
                 (fun r => r.country = k.1 ∧ r.date = k.2)).map
                   (fun r => r.value.getD 0)).sum) } : SRow))
        ++ (melt w).filter (fun r => r.country = "China") := rfl
  refine ⟨?_, ?_, ?_⟩
  · intro c d hc hex
    obtain ⟨r0, hr0, hrc, hrd⟩ := hex
    have hkmem : (c, d) ∈ List.insertionSort (fun p q => pairLe p q = true)
        (((melt w).map (fun r => (r.country, r.date))).dedup) := by
      rw [(List.perm_insertionSort _ _).mem_iff, List.mem_dedup]
      exact List.mem_map.mpr ⟨r0, hr0, by rw [hrc, hrd]⟩
    have hchina : ((melt w).filter (fun r => r.country = "China")).filter
        (fun r => decide (r.country = c ∧ r.date = d)) = [] := by
      apply filter_eq_nil_of_forall
      intro x hx
      have hxc : x.country = "China" := of_decide_eq_true (List.mem_filter.mp hx).2
      simp only [decide_eq_false_iff_not]
      rintro ⟨h1, _⟩
      exact hc (by rw [← h1, hxc])
    have hpf : (List.insertionSort (fun p q => pairLe p q = true)
          (((melt w).map (fun r => (r.country, r.date))).dedup)).filter
          (fun k : String × ℕ => decide (k.1 = c ∧ k.2 = d))
        = (List.insertionSort (fun p q => pairLe p q = true)
          (((melt w).map (fun r => (r.country, r.date))).dedup)).filter
          (fun k => k = (c, d)) := by
      apply List.filter_congr
      intro k _
      simp [Prod.ext_iff]
    constructor
    · rw [hout, List.filter_append, hchina, List.filter_map]
      have : ((fun r : SRow => decide (r.country = c ∧ r.date = d)) ∘ fun k : String × ℕ =>
          ({ country := k.1, province := "<all>",
             lat := median (((melt w).filter
               (fun r => r.country = k.1 ∧ r.date = k.2)).map (fun r => r.lat)),
             long := median (((melt w).filter
               (fun r => r.country = k.1 ∧ r.date = k.2)).map (fun r => r.long)),
             date := k.2,
             value := some ((((melt w).filter
               (fun r => r.country = k.1 ∧ r.date = k.2)).map
                 (fun r => r.value.getD 0)).sum) } : SRow))
          = fun k : String × ℕ => decide (k.1 = c ∧ k.2 = d) := rfl
      rw [this, hpf, filter_singleton_of_nodup _ hkeysnd _ hkmem]
      rfl
    · intro r hr
      rw [hout, List.filter_append, hchina, List.filter_map] at hr
      have : ((fun r : SRow => decide (r.country = c ∧ r.date = d)) ∘ fun k : String × ℕ =>
          ({ country := k.1, province := "<all>",
             lat := median (((melt w).filter
               (fun r => r.country = k.1 ∧ r.date = k.2)).map (fun r => r.lat)),
             long := median (((melt w).filter
               (fun r => r.country = k.1 ∧ r.date = k.2)).map (fun r => r.long)),
             date := k.2,
             value := some ((((melt w).filter
               (fun r => r.country = k.1 ∧ r.date = k.2)).map
                 (fun r => r.value.getD 0)).sum) } : SRow))
          = fun k : String × ℕ => decide (k.1 = c ∧ k.2 = d) := rfl
      rw [this, hpf, filter_singleton_of_nodup _ hkeysnd _ hkmem] at hr
      simp only [List.map_cons, List.map_nil, List.append_nil, List.mem_singleton] at hr
      rw [hr]
  · intro d hex
    obtain ⟨r0, hr0, hrc, hrd⟩ := hex
    have hkmem : ("China", d) ∈ List.insertionSort (fun p q => pairLe p q = true)
        (((melt w).map (fun r => (r.country, r.date))).dedup) := by
      rw [(List.perm_insertionSort _ _).mem_iff, List.mem_dedup]
      exact List.mem_map.mpr ⟨r0, hr0, by rw [hrc, hrd]⟩
    rw [hout]
    exact ⟨_, List.mem_append_left _ (List.mem_map_of_mem _ hkmem), rfl, rfl, rfl, rfl⟩
  · intro r hr hrc
    rw [hout]
    apply List.mem_append_right
    exact List.mem_filter.mpr ⟨hr, by simp [hrc]⟩

/-- Witness for C4 on a concrete wide table with Chinese provinces and a
second country. -/
theorem C4_witness :
    ((load_data_global wideChina).filter
        (fun r => r.country = "Aland" ∧ r.date = 1)).length = 1
    ∧ ∃ a ∈ load_data_global wideChina,
        a.country = "China" ∧ a.date = 1 ∧ a.province = "<all>"
        ∧ a.value = some ((((melt wideChina).filter
            (fun r => r.country = "China" ∧ r.date = 1)).map
              (fun r => r.value.getD 0)).sum) :=
  ⟨((C4_global_aggregation wideChina).1 "Aland" 1 (by decide) (by decide)).1,
   (C4_global_aggregation wideChina).2.1 1 (by decide)⟩
